import Mathlib

/-!
Shallow embedding of the adaptive Q&A core of the alas-backend service
(`app/qna/utils.py`), together with theorems settling the specification
claims about it.

Modelling conventions:
* MongoDB documents are Lean structures; optional document fields are
  `Option` fields (`none` = field absent).
* A collection is a `List` of documents in natural (insertion) order;
  `find` is `List.filter`, `find_one` is `(List.filter ·).head?`, `limit n`
  is `List.take n`, and an ascending sort is a stable insertion sort.
* MongoDB compares strings lexicographically by code point (byte order for
  ASCII); `$gt`/`$lte` on a string only match string-valued fields.
* Python scalar values are the inductive `Value`; Python `==` is `pyEq`
  (which equates `True`/`1` and `False`/`0` as Python does), `str(...)` is
  `pyStr`.
* Floating point mastery arithmetic is modelled over `ℚ` (0.9 = 9/10).
* A raised Python exception is `Option.none` in a function's result.
-/

namespace Alas

/-- Scalar Python/BSON values as stored in documents and submitted as
answers. `void n` models a BSON ObjectId (identified by a natural). -/
inductive Value where
  | vstr (s : String)
  | vint (n : Int)
  | vbool (b : Bool)
  | vnull
  | void (n : Nat)
deriving DecidableEq, Repr

/-- Python `str(...)` on a scalar value. -/
def pyStr : Value → String
  | Value.vstr s => s
  | Value.vint n => toString n
  | Value.vbool b => if b then "True" else "False"
  | Value.vnull => "None"
  | Value.void n => toString n

/-- Python `==` on scalar values: structural equality except that booleans
compare equal to the integers 0/1. -/
def pyEq : Value → Value → Bool
  | Value.vstr a, Value.vstr b => a == b
  | Value.vint a, Value.vint b => a == b
  | Value.vbool a, Value.vbool b => a == b
  | Value.vbool a, Value.vint b => (if a then (1 : Int) else 0) == b
  | Value.vint a, Value.vbool b => a == (if b then (1 : Int) else 0)
  | Value.vnull, Value.vnull => true
  | Value.void a, Value.void b => a == b
  | _, _ => false

/-- Lexicographic comparison of character lists (MongoDB string order,
code-point order, which is byte order for ASCII). -/
def charsLt : List Char → List Char → Bool
  | [], [] => false
  | [], _ :: _ => true
  | _ :: _, [] => false
  | a :: as, b :: bs => if a < b then true else if b < a then false else charsLt as bs

/-- MongoDB `<` on strings. -/
def strLt (a b : String) : Bool := charsLt a.data b.data

/-- MongoDB `<=` on strings (total order, so `a <= b` iff `¬ b < a`). -/
def strLe (a b : String) : Bool := !(strLt b a)

/-- A question document from the `questions` collection.  Fields the code
reads with `.get` and that may be absent are `Option`s. -/
structure Question where
  qid : Nat
  qtype? : Option String := none
  difficulty? : Option String := none
  subject? : Option String := none
  topic? : Option String := none
  skills? : Option (List String) := none
  correct_answer? : Option Value := none
  points? : Option Nat := none
  priority? : Option Int := none
  explanations : List (String × String) := []
  explanation? : Option String := none
deriving DecidableEq, Repr

/-- Per-skill progress record (`{mastery_level, attempts, correct}`). -/
structure SkillData where
  mastery_level : ℚ
  attempts : Nat
  correct : Nat
deriving DecidableEq, Repr

/-- A user-progress document (the fields the core reads and writes). The
`skills` mapping is an insertion-ordered association list, like a Python
dict. -/
structure Progress where
  completed_questions : List Nat
  attempted_questions : List Nat
  correct_answers : Nat
  total_attempts : Nat
  skills : List (String × SkillData)
deriving DecidableEq, Repr

/-- The freshly initialized progress document (all counters zero/empty). -/
def initProgress : Progress :=
  { completed_questions := []
    attempted_questions := []
    correct_answers := 0
    total_attempts := 0
    skills := [] }

/-- First-occurrence lookup in an association list (Python `dict.get` /
`dict[k]`; dict keys are unique so first occurrence is the occurrence). -/
def findVal (k : String) : List (String × α) → Option α
  | [] => none
  | (k', v) :: rest => if k' = k then some v else findVal k rest

/-- Python `d[k] = v`: replace the value at `k` in place, preserving
position; append at the end when `k` is absent. -/
def assocSet (k : String) (v : α) : List (String × α) → List (String × α)
  | [] => [(k, v)]
  | (k', v') :: rest => if k' = k then (k, v) :: rest else (k', v') :: assocSet k v rest

/-- Python `del d[k]` guarded by `if k in d`: remove the first binding of
`k`, identity when `k` is absent. -/
def assocErase (k : String) : List (String × α) → List (String × α)
  | [] => []
  | (k', v) :: rest => if k' = k then rest else (k', v) :: assocErase k rest

/-- The result of evaluating a submitted answer (`is_correct`, `feedback`,
`score`). -/
structure EvalResult where
  is_correct : Bool
  feedback : String
  score : Nat
deriving DecidableEq, Repr

/-- The answer-evaluation portion of `save_user_answer`
(`app/qna/utils.py` lines 109-135): initializes
`(False, "Incorrect answer.", 0)` and overwrites in the
`multiple_choice` / `text` branches.  `none` models the `AttributeError`
raised in the `text` branch when `correct_answer` is a non-string. -/
def evaluate_answer (question : Question) (user_answer : Value) : Option EvalResult :=
  let question_type := question.qtype?.getD "multiple_choice"
  if question_type = "multiple_choice" then
    let correct_answer := question.correct_answer?.getD Value.vnull
    if pyEq user_answer correct_answer then
      some { is_correct := true, feedback := "Correct!", score := question.points?.getD 10 }
    else
      some { is_correct := false
             feedback := (findVal (pyStr user_answer) question.explanations).getD "Incorrect choice."
             score := 0 }
  else if question_type = "text" then
    match question.correct_answer?.getD (Value.vstr "") with
    | Value.vstr s =>
      let correct_answer := s.toLower.trim
      let user_text := (pyStr user_answer).toLower.trim
      if user_text = correct_answer then
        some { is_correct := true, feedback := "Correct!", score := question.points?.getD 10 }
      else
        some { is_correct := false
               feedback := question.explanation?.getD "Incorrect answer."
               score := 0 }
    | _ => none
  else
    some { is_correct := false, feedback := "Incorrect answer.", score := 0 }

/-- One step of the skills-update loop in `update_user_progress`
(lines 210-231): get-or-init the skill record, bump `attempts` (and
`correct` when the answer was correct), then recompute `mastery_level`
as `old * 0.9 + (correct/attempts * 100) * (1 - 0.9)` guarded by
`attempts > 0`. -/
def updateSkillData (is_correct : Bool) (sd : SkillData) : SkillData :=
  let attempts := sd.attempts + 1
  let correct := sd.correct + (if is_correct then 1 else 0)
  if attempts > 0 then
    let mastery : ℚ := ((correct : ℚ) / (attempts : ℚ)) * 100
    let decay_factor : ℚ := 9 / 10
    { mastery_level := sd.mastery_level * decay_factor + mastery * (1 - decay_factor)
      attempts := attempts
      correct := correct }
  else
    { mastery_level := sd.mastery_level, attempts := attempts, correct := correct }

/-- Loop body of `for skill in skills:` in `update_user_progress`: the
absent skill is first initialized to `{0, 0, 0}`, then updated in place. -/
def skillsStep (is_correct : Bool) (m : List (String × SkillData)) (skill : String) :
    List (String × SkillData) :=
  assocSet skill (updateSkillData is_correct ((findVal skill m).getD ⟨0, 0, 0⟩)) m

/-- `update_user_progress` (lines 169-240): get-or-init the progress
document, bump `total_attempts`, add the question to `attempted_questions`
if absent, on a correct answer bump `correct_answers` and add to
`completed_questions` if absent, then run the skills loop over
`question.get("skills", [])`. -/
def update_user_progress (progress? : Option Progress) (question_id : Nat)
    (question : Question) (is_correct : Bool) : Progress :=
  let p := progress?.getD initProgress
  let p1 := { p with total_attempts := p.total_attempts + 1 }
  let p2 :=
    if question_id ∈ p1.attempted_questions then p1
    else { p1 with attempted_questions := p1.attempted_questions ++ [question_id] }
  let p3 :=
    if is_correct then
      let pc := { p2 with correct_answers := p2.correct_answers + 1 }
      if question_id ∈ pc.completed_questions then pc
      else { pc with completed_questions := pc.completed_questions ++ [question_id] }
    else p2
  { p3 with skills := (question.skills?.getD []).foldl (skillsStep is_correct) p3.skills }

/-- `get_question_by_id` (lines 6-17): `find_one({"_id": id})`, the first
catalog document with the given id. -/
def get_question_by_id (catalog : List Question) (question_id : Nat) : Option Question :=
  (catalog.filter (fun q => q.qid == question_id)).head?

/-- Python truthiness of an optional string filter (`if difficulty:`):
present and non-empty. -/
def truthyStr : Option String → Bool
  | none => false
  | some s => !(s == "")

/-- Stable insertion of an element into a list sorted by `le`, placing it
before the first element it compares `le` to (stability). -/
def insLe (le : α → α → Bool) (a : α) : List α → List α
  | [] => [a]
  | x :: xs => if le a x then a :: x :: xs else x :: insLe le a xs

/-- Stable insertion sort by `le` (models a stable ascending sort of a
query cursor, and Python's stable `sorted`). -/
def sortLe (le : α → α → Bool) : List α → List α
  | [] => []
  | x :: xs => insLe le x (sortLe le xs)

/-- Ascending `priority` order used by `.sort([("priority", 1)])`:
documents missing `priority` sort before all present values. -/
def prioLE (a b : Question) : Bool :=
  match a.priority?, b.priority? with
  | none, _ => true
  | some _, none => false
  | some x, some y => x ≤ y

/-- Ascending `mastery_level` order used by
`sorted(..., key=lambda x: x[1]["mastery_level"])`. -/
def skillLE (a b : String × SkillData) : Bool :=
  a.2.mastery_level ≤ b.2.mastery_level

/-- The user's single weakest skill: head of the stable
mastery-ascending sort of the tracked skills, when any exist. -/
def weakestSkill (skills : List (String × SkillData)) : Option String :=
  ((sortLe skillLE skills).head?).map Prod.fst

/-- Exclusion of the user's completed questions
(`_id: {"$nin": completed}` added when progress is supplied). -/
def completedFilter (progress? : Option Progress) (q : Question) : Bool :=
  match progress? with
  | none => true
  | some p => !(p.completed_questions.contains q.qid)

/-- Weak-skill narrowing (`query["skills"] = weakest_skill`, added when
progress is supplied and tracks at least one skill): an array field
matches a scalar query value iff it contains it. -/
def weakSkillFilter (progress? : Option Progress) (q : Question) : Bool :=
  match progress? with
  | none => true
  | some p =>
    match weakestSkill p.skills with
    | none => true
    | some s => (q.skills?.getD []).contains s

/-- The difficulty/subject equality filters of `get_next_questions`
(each added only when the argument is truthy). -/
def baseFilter (difficulty subject : Option String) (q : Question) : Bool :=
  (if truthyStr difficulty then q.difficulty? == difficulty else true) &&
  (if truthyStr subject then q.subject? == subject else true)

/-- The stage-1 query of `get_next_questions`: base filters, topic filter,
completed-exclusion, and weak-skill narrowing. -/
def stage1Query (difficulty subject topic : Option String) (progress? : Option Progress)
    (q : Question) : Bool :=
  baseFilter difficulty subject q &&
  (if truthyStr topic then q.topic? == topic else true) &&
  completedFilter progress? q &&
  weakSkillFilter progress? q

/-- The stage-2 query: stage 1 with the topic filter deleted. -/
def stage2Query (difficulty subject : Option String) (progress? : Option Progress)
    (q : Question) : Bool :=
  baseFilter difficulty subject q &&
  completedFilter progress? q &&
  weakSkillFilter progress? q

/-- Stage 1 of `get_next_questions`: all filters, sorted by ascending
priority, limited to `count`. -/
def stage1Result (catalog : List Question) (count : Nat)
    (difficulty subject topic : Option String) (progress? : Option Progress) :
    List Question :=
  (sortLe prioLE (catalog.filter (stage1Query difficulty subject topic progress?))).take count

/-- Stages 1-2 of `get_next_questions`: when stage 1 is short and a topic
filter was present, re-query without it (still excluding completed ids but
not the ids already chosen) and top up. -/
def stage2Result (catalog : List Question) (count : Nat)
    (difficulty subject topic : Option String) (progress? : Option Progress) :
    List Question :=
  let qs1 := stage1Result catalog count difficulty subject topic progress?
  if qs1.length < count && truthyStr topic then
    qs1 ++ (sortLe prioLE (catalog.filter (stage2Query difficulty subject progress?))).take
      (count - qs1.length)
  else qs1

/-- `get_next_questions` (lines 19-87): after stages 1-2, a still-short
result is filled with any questions whose ids are neither already chosen
nor completed, in catalog order. -/
def get_next_questions (catalog : List Question) (count : Nat)
    (difficulty subject topic : Option String) (progress? : Option Progress) :
    List Question :=
  let qs2 := stage2Result catalog count difficulty subject topic progress?
  if qs2.length < count then
    qs2 ++ (catalog.filter (fun q =>
      !((qs2.map Question.qid).contains q.qid) && completedFilter progress? q)).take
      (count - qs2.length)
  else qs2

/-- The query of the correct-answer branch of `recommend_next_question`
(lines 323-333): same topic, difficulty a string strictly greater (MongoDB
lexicographic order, default `"medium"` when the current question has no
difficulty), id different from the current question, and excluded from the
completed set when that set is non-empty. -/
def recommendCorrectQuery (question : Question) (progress : Progress)
    (current_question_id : Nat) (q : Question) : Bool :=
  (q.topic? == question.topic?) &&
  (match q.difficulty? with
   | some d => strLt (question.difficulty?.getD "medium") d
   | none => false) &&
  (q.qid != current_question_id) &&
  (if !progress.completed_questions.isEmpty then
     !(progress.completed_questions.contains q.qid)
   else true)

/-- The query of the incorrect-answer branch (lines 334-344): same topic,
difficulty a string less than or equal, id different from the current
question, and — when the current question carries a `skills` field — a
non-empty overlap with its skill list (`$in`).  Completed questions are
not excluded here. -/
def recommendIncorrectQuery (question : Question) (current_question_id : Nat)
    (q : Question) : Bool :=
  (q.topic? == question.topic?) &&
  (match q.difficulty? with
   | some d => strLe d (question.difficulty?.getD "medium")
   | none => false) &&
  (q.qid != current_question_id) &&
  (if question.skills?.isSome then
     (q.skills?.getD []).any (fun sk => (question.skills?.getD []).contains sk)
   else true)

/-- The fallback query (lines 350-355): any question other than the
current one, excluding the completed set when non-empty. -/
def recommendFallbackQuery (progress : Progress) (current_question_id : Nat)
    (q : Question) : Bool :=
  (q.qid != current_question_id) &&
  (if !progress.completed_questions.isEmpty then
     !(progress.completed_questions.contains q.qid)
   else true)

/-- `recommend_next_question` (lines 304-357): look up the current
question, run the branch query picked by correctness, then the fallback;
return the id of the first match, or `none`. -/
def recommend_next_question (catalog : List Question) (progress : Progress)
    (current_question_id : Nat) (is_correct : Bool) : Option Nat :=
  match get_question_by_id catalog current_question_id with
  | none => none
  | some question =>
    let primary :=
      if is_correct then recommendCorrectQuery question progress current_question_id
      else recommendIncorrectQuery question current_question_id
    match (catalog.filter primary).head? with
    | some nq => some nq.qid
    | none =>
      match (catalog.filter (recommendFallbackQuery progress current_question_id)).head? with
      | some nq => some nq.qid
      | none => none

/-- A stored document as a string-keyed record of scalar values
(insertion-ordered, unique keys), for the response-formatting layer. -/
abbrev Dict := List (String × Value)

/-- `format_question_response` (lines 359-381): empty/falsy input yields
`{}`; otherwise clone, overwrite `_id` with its `str(...)` (KeyError —
modelled as `none` — when `_id` is absent), then delete `correct_answer`
and `explanations` when present. -/
def format_question_response (question : Dict) : Option Dict :=
  if question.isEmpty then some []
  else
    match findVal "_id" question with
    | none => none
    | some v =>
      some (assocErase "explanations"
        (assocErase "correct_answer"
          (assocSet "_id" (Value.vstr (pyStr v)) question)))

/-! ### Concrete instances used by counterexamples and bug exhibits -/

/-- The answered question of the C1 scenario: topic "algebra", difficulty
"medium". -/
def c1Current : Question := { qid := 0, topic? := some "algebra", difficulty? := some "medium" }

/-- A question on a different topic with a lower difficulty, first in
catalog order after the current question. -/
def c1Other : Question := { qid := 1, topic? := some "geometry", difficulty? := some "easy" }

/-- The same-topic strictly-harder (category order) question the
recommendation is supposed to return. -/
def c1Harder : Question := { qid := 2, topic? := some "algebra", difficulty? := some "hard" }

/-- The question catalog of the C1 scenario. -/
def c1Catalog : List Question := [c1Current, c1Other, c1Harder]

/-- The user's progress after correctly answering the current question
(reached from the initial document by one progress update). -/
def c1Progress : Progress := update_user_progress (some initProgress) 0 c1Current true

/-- C1: after a correct answer on the topic-"algebra" difficulty-"medium"
question, an uncompleted "algebra"/"hard" question (id 2) exists and is
not the current question, yet `recommend_next_question` returns id 1 — a
"geometry"/"easy" question — because MongoDB's `$gt` compares the
difficulty strings lexicographically and `"hard" < "medium"` in that
order, so the harder-question query matches nothing and the generic
fallback fires.  This exhibits the divergence between the code and the
claimed category order easy < medium < hard. -/
theorem c1_recommend_after_correct_never_advances_medium_to_hard :
    c1Harder.topic? = c1Current.topic? ∧
    c1Harder.difficulty? = some "hard" ∧
    c1Current.difficulty? = some "medium" ∧
    c1Harder.qid ∉ c1Progress.completed_questions ∧
    c1Harder.qid ≠ c1Current.qid ∧
    strLt "medium" "hard" = false ∧
    recommend_next_question c1Catalog c1Progress 0 true = some 1 ∧
    c1Other.topic? ≠ c1Current.topic? := by decide

/-- A question whose `type` field holds the unrecognized value "essay". -/
def c2EssayQ : Question :=
  { qid := 5, qtype? := some "essay", correct_answer? := some (Value.vstr "B"),
    points? := some 10 }

/-- C2 counterexample: on a question whose `type` is the unrecognized
value "essay", the submitted answer equals `correct_answer` exactly, yet
the evaluator marks it incorrect with score 0 and the generic feedback —
the claimed multiple-choice default applies only when the `type` field is
absent, not when it holds an unrecognized value. -/
theorem c2_unrecognized_type_counterexample :
    c2EssayQ.qtype? = some "essay" ∧
    "essay" ≠ "multiple_choice" ∧ "essay" ≠ "text" ∧
    c2EssayQ.correct_answer? = some (Value.vstr "B") ∧
    evaluate_answer c2EssayQ (Value.vstr "B") =
      some { is_correct := false, feedback := "Incorrect answer.", score := 0 } := by decide

/-- C2 (amended): for every question whose `type` field holds an
unrecognized value — neither "multiple_choice" nor "text" — the evaluator
falls through both branches and marks every submitted answer incorrect
with score 0 and the generic feedback "Incorrect answer."; only a question
with no `type` field at all is treated as multiple-choice. -/
theorem c2_unrecognized_type_always_incorrect (q : Question) (t : String) (ua : Value)
    (ht : q.qtype? = some t) (h1 : t ≠ "multiple_choice") (h2 : t ≠ "text") :
    evaluate_answer q ua =
      some { is_correct := false, feedback := "Incorrect answer.", score := 0 } := by
  unfold evaluate_answer
  rw [ht]
  simp [Option.getD, h1, h2]

/-- Witness for the amended C2 theorem at the concrete "essay" question. -/
theorem c2_unrecognized_type_always_incorrect_witness :
    (c2EssayQ.qtype? = some "essay" ∧ "essay" ≠ "multiple_choice" ∧ "essay" ≠ "text") ∧
    evaluate_answer c2EssayQ (Value.vstr "B") =
      some { is_correct := false, feedback := "Incorrect answer.", score := 0 } :=
  ⟨⟨by decide, by decide, by decide⟩,
    c2_unrecognized_type_always_incorrect c2EssayQ "essay" (Value.vstr "B")
      (by decide) (by decide) (by decide)⟩

/-- The only question on topic "t" (and the lower-priority question of the
C3 scenario). -/
def c3TopicQ : Question := { qid := 1, topic? := some "t", priority? := some 1 }

/-- A question on a different topic, with a higher priority value. -/
def c3OffTopicQ : Question := { qid := 2, topic? := some "u", priority? := some 2 }

/-- C3 counterexample: requesting 2 questions with topic filter "t" from a
two-question catalog returns the topic-"t" question twice — stage 1 finds
only it, and the stage-2 top-up re-queries without the topic filter but
also without excluding the ids already chosen, so it picks the same
question again.  The response thus contains a duplicate id. -/
theorem c3_stage2_duplicate_counterexample :
    get_next_questions [c3TopicQ, c3OffTopicQ] 2 none none (some "t") (some initProgress) =
      [c3TopicQ, c3TopicQ] ∧
    ¬ ((get_next_questions [c3TopicQ, c3OffTopicQ] 2 none none (some "t")
        (some initProgress)).map Question.qid).Nodup := by decide

/-- The current question of the C10 scenario. -/
def c10Current : Question :=
  { qid := 0, topic? := some "t", difficulty? := some "medium", skills? := some ["s"] }

/-- A same-topic easier question sharing a skill tag, which the user has
already answered correctly. -/
def c10Completed : Question :=
  { qid := 1, topic? := some "t", difficulty? := some "easy", skills? := some ["s"] }

/-- The user's progress after correctly answering question 1, reached from
the initial document by one progress update. -/
def c10Progress : Progress := update_user_progress (some initProgress) 1 c10Completed true

/-- C10: a reachable state in which, after an incorrect answer, the
recommendation returns a question the user has already completed: question
1 is in the completed set, an answer to question 0 evaluates incorrect,
and the incorrect-answer branch — which never excludes completed
questions — returns question 1. -/
theorem c10_incorrect_branch_can_return_completed :
    (1 : Nat) ∈ c10Progress.completed_questions ∧
    (evaluate_answer c10Current (Value.vstr "wrong")).map EvalResult.is_correct = some false ∧
    recommend_next_question [c10Current, c10Completed] c10Progress 0 false = some 1 := by decide

/-! ### Projection lemmas for `update_user_progress` -/

/-- The skills map of the updated document is the skills loop folded over
the prior skills map; none of the earlier counter updates touch it. -/
theorem update_skills_eq (progress? : Option Progress) (question_id : Nat)
    (question : Question) (is_correct : Bool) :
    (update_user_progress progress? question_id question is_correct).skills =
      (question.skills?.getD []).foldl (skillsStep is_correct)
        (progress?.getD initProgress).skills := by
  simp only [update_user_progress]
  split_ifs <;> rfl

/-- `total_attempts` is incremented by exactly one on every update. -/
theorem update_total_eq (progress? : Option Progress) (question_id : Nat)
    (question : Question) (is_correct : Bool) :
    (update_user_progress progress? question_id question is_correct).total_attempts =
      (progress?.getD initProgress).total_attempts + 1 := by
  simp only [update_user_progress]
  split_ifs <;> rfl

/-- The attempted set after an update: unchanged when the question was
already attempted, otherwise the question id is appended. -/
theorem update_attempted_eq (progress? : Option Progress) (question_id : Nat)
    (question : Question) (is_correct : Bool) :
    (update_user_progress progress? question_id question is_correct).attempted_questions =
      if question_id ∈ (progress?.getD initProgress).attempted_questions then
        (progress?.getD initProgress).attempted_questions
      else (progress?.getD initProgress).attempted_questions ++ [question_id] := by
  simp only [update_user_progress]
  split_ifs <;> rfl

/-- The completed set after an update: the question id is appended exactly
when the answer was correct and the id was not already completed. -/
theorem update_completed_eq (progress? : Option Progress) (question_id : Nat)
    (question : Question) (is_correct : Bool) :
    (update_user_progress progress? question_id question is_correct).completed_questions =
      if is_correct then
        (if question_id ∈ (progress?.getD initProgress).completed_questions then
          (progress?.getD initProgress).completed_questions
        else (progress?.getD initProgress).completed_questions ++ [question_id])
      else (progress?.getD initProgress).completed_questions := by
  simp only [update_user_progress]
  split_ifs <;> rfl

/-- `correct_answers` is incremented exactly when the answer was correct. -/
theorem update_correct_eq (progress? : Option Progress) (question_id : Nat)
    (question : Question) (is_correct : Bool) :
    (update_user_progress progress? question_id question is_correct).correct_answers =
      (progress?.getD initProgress).correct_answers + (if is_correct then 1 else 0) := by
  simp only [update_user_progress]
  split_ifs <;> rfl

/-- C7: after every call to `update_user_progress` (any question, skill
set and correctness flag), `total_attempts` is exactly one greater than
its value before the call, and the attempted set is a superset of its
prior value with the submitted question id now a member. -/
theorem c7_total_attempts_and_attempted_monotone (progress? : Option Progress)
    (question_id : Nat) (question : Question) (is_correct : Bool) :
    (update_user_progress progress? question_id question is_correct).total_attempts =
      (progress?.getD initProgress).total_attempts + 1 ∧
    (progress?.getD initProgress).attempted_questions ⊆
      (update_user_progress progress? question_id question is_correct).attempted_questions ∧
    question_id ∈
      (update_user_progress progress? question_id question is_correct).attempted_questions := by
  refine ⟨update_total_eq .., ?_, ?_⟩ <;> rw [update_attempted_eq] <;> split_ifs with h
  · exact List.Subset.refl _
  · exact List.subset_append_left _ _
  · exact h
  · simp

/-! ### Association-list lemmas and the mastery-update formula -/

/-- Looking up the key just set yields the value set. -/
theorem findVal_assocSet_self {α : Type} (k : String) (v : α) (l : List (String × α)) :
    findVal k (assocSet k v l) = some v := by
  induction l with
  | nil => simp [assocSet, findVal]
  | cons kv rest ih =>
    obtain ⟨k', v'⟩ := kv
    by_cases h : k' = k
    · simp [assocSet, findVal, h]
    · simp [assocSet, findVal, h, ih]

/-- Setting one key leaves lookups of other keys unchanged. -/
theorem findVal_assocSet_ne {α : Type} (k k' : String) (h : k' ≠ k) (v : α)
    (l : List (String × α)) : findVal k' (assocSet k v l) = findVal k' l := by
  have hne : ¬ k = k' := fun hh => h hh.symm
  induction l with
  | nil => simp [assocSet, findVal, hne]
  | cons kv rest ih =>
    obtain ⟨k0, v0⟩ := kv
    by_cases h0 : k0 = k
    · subst h0
      simp [assocSet, findVal, hne]
    · simp [assocSet, findVal, h0, ih]

/-- One iteration of the skills loop leaves other skills' records
unchanged. -/
theorem findVal_skillsStep_ne (b : Bool) (m : List (String × SkillData)) (s s0 : String)
    (h : s ≠ s0) : findVal s (skillsStep b m s0) = findVal s m := by
  unfold skillsStep
  exact findVal_assocSet_ne s0 s h _ m

/-- Folding the skills loop over tags not containing `s` leaves the record
of `s` unchanged. -/
theorem findVal_foldl_not_mem (b : Bool) (ss : List String) (s : String)
    (m : List (String × SkillData)) (h : s ∉ ss) :
    findVal s (ss.foldl (skillsStep b) m) = findVal s m := by
  induction ss generalizing m with
  | nil => rfl
  | cons a as ih =>
    simp only [List.foldl_cons]
    rw [ih _ (fun hm => h (List.mem_cons_of_mem a hm)),
      findVal_skillsStep_ne b m s a (fun he => h (he ▸ List.mem_cons_self a as))]

/-- Folding the skills loop over a duplicate-free tag list containing `s`
updates the record of `s` exactly once, starting from the stored record or
the all-zero default. -/
theorem findVal_foldl_mem (b : Bool) (ss : List String) (s : String)
    (m : List (String × SkillData)) (h : s ∈ ss) (hnd : ss.Nodup) :
    findVal s (ss.foldl (skillsStep b) m) =
      some (updateSkillData b ((findVal s m).getD ⟨0, 0, 0⟩)) := by
  induction ss generalizing m with
  | nil => cases h
  | cons a as ih =>
    simp only [List.foldl_cons]
    rcases List.mem_cons.mp h with he | hm
    · subst he
      have hna : s ∉ as := (List.nodup_cons.mp hnd).1
      rw [findVal_foldl_not_mem b as s _ hna]
      unfold skillsStep
      exact findVal_assocSet_self s _ m
    · have hne : s ≠ a := fun he => (List.nodup_cons.mp hnd).1 (he ▸ hm)
      rw [ih (skillsStep b m a) hm (List.nodup_cons.mp hnd).2,
        findVal_skillsStep_ne b m s a hne]

/-- The record stored for skill `s` before an update (the all-zero record
when the skill has not been seen). -/
def priorSkill (progress? : Option Progress) (s : String) : SkillData :=
  (findVal s (progress?.getD initProgress).skills).getD ⟨0, 0, 0⟩

/-- C5: for every skill tag carried by the answered question (the tag list
being duplicate-free, as skills form a set), `update_user_progress` stores
for that skill the lifetime counters incremented by this submission and
the mastery level `old_mastery * 0.9 + (100 * correct / attempts) * 0.1`
computed from the post-increment lifetime counters; skills first seen on
this submission start from the all-zero record. -/
theorem c5_skill_mastery_update_formula (progress? : Option Progress) (question_id : Nat)
    (question : Question) (is_correct : Bool) (s : String)
    (hmem : s ∈ question.skills?.getD [])
    (hnd : (question.skills?.getD []).Nodup) :
    findVal s (update_user_progress progress? question_id question is_correct).skills =
      some { mastery_level :=
               (priorSkill progress? s).mastery_level * (9 / 10) +
                 (100 * (((priorSkill progress? s).correct : ℚ) +
                     (if is_correct then 1 else 0)) /
                   (((priorSkill progress? s).attempts : ℚ) + 1)) * (1 / 10)
             attempts := (priorSkill progress? s).attempts + 1
             correct := (priorSkill progress? s).correct + (if is_correct then 1 else 0) } := by
  rw [update_skills_eq, findVal_foldl_mem is_correct _ s _ hmem hnd]
  simp only [updateSkillData, priorSkill, gt_iff_lt]
  rw [if_pos (Nat.succ_pos _)]
  simp only [Option.some.injEq, SkillData.mk.injEq, and_true]
  cases is_correct <;> simp only [if_false, if_true, Bool.false_eq_true] <;> push_cast <;> ring

/-- The question of the C5 witness, carrying the single skill tag "alg". -/
def c5WitnessQ : Question := { qid := 9, skills? := some ["alg"] }

/-- Witness for C5 at a fresh user answering the question correctly: the
skill "alg" ends at attempts 1, correct 1, mastery `0 * 0.9 + 100 * 0.1`. -/
theorem c5_skill_mastery_update_formula_witness :
    ("alg" ∈ c5WitnessQ.skills?.getD [] ∧ (c5WitnessQ.skills?.getD []).Nodup) ∧
    findVal "alg" (update_user_progress none 9 c5WitnessQ true).skills =
      some { mastery_level :=
               (priorSkill none "alg").mastery_level * (9 / 10) +
                 (100 * (((priorSkill none "alg").correct : ℚ) +
                     (if true then 1 else 0)) /
                   (((priorSkill none "alg").attempts : ℚ) + 1)) * (1 / 10)
             attempts := (priorSkill none "alg").attempts + 1
             correct := (priorSkill none "alg").correct + (if true then 1 else 0) } :=
  ⟨⟨by decide, by decide⟩,
    c5_skill_mastery_update_formula none 9 c5WitnessQ true "alg" (by decide) (by decide)⟩

/-- The per-skill invariant: mastery in [0,100] and lifetime correct count
bounded by lifetime attempts (the auxiliary bound needed for induction). -/
def SkillInvariant (sd : SkillData) : Prop :=
  0 ≤ sd.mastery_level ∧ sd.mastery_level ≤ 100 ∧ sd.correct ≤ sd.attempts

/-- One mastery update preserves the per-skill invariant: the lifetime
accuracy lies in [0,100], so the 90/10 blend of two values in [0,100]
stays in [0,100]. -/
theorem updateSkillData_inv (b : Bool) (sd : SkillData) (h : SkillInvariant sd) :
    SkillInvariant (updateSkillData b sd) := by
  obtain ⟨h0, h100, hca⟩ := h
  have hca2 : sd.correct + (if b then 1 else 0) ≤ sd.attempts + 1 := by
    cases b <;> simp <;> omega
  have ha : (0 : ℚ) < ((sd.attempts + 1 : Nat) : ℚ) := by exact_mod_cast Nat.succ_pos _
  have hx0 : (0 : ℚ) ≤
      ((sd.correct + (if b then 1 else 0) : Nat) : ℚ) / ((sd.attempts + 1 : Nat) : ℚ) := by
    positivity
  have hx1 : ((sd.correct + (if b then 1 else 0) : Nat) : ℚ) / ((sd.attempts + 1 : Nat) : ℚ) ≤ 1 := by
    rw [div_le_one ha]
    exact_mod_cast hca2
  simp only [updateSkillData, SkillInvariant, gt_iff_lt]
  rw [if_pos (Nat.succ_pos _)]
  refine ⟨?_, ?_, hca2⟩
  · nlinarith [hx0, hx1]
  · nlinarith [hx0, hx1]

/-- Members of `assocSet k v l` are the new binding or members of `l`. -/
theorem mem_assocSet {α : Type} (kv : String × α) (k : String) (v : α) (l : List (String × α))
    (h : kv ∈ assocSet k v l) : kv = (k, v) ∨ kv ∈ l := by
  induction l with
  | nil => simpa [assocSet] using h
  | cons kv0 rest ih =>
    obtain ⟨k0, v0⟩ := kv0
    by_cases h0 : k0 = k
    · simp only [assocSet, if_pos h0] at h
      rcases List.mem_cons.mp h with he | hm
      · exact Or.inl he
      · exact Or.inr (List.mem_cons_of_mem _ hm)
    · simp only [assocSet, if_neg h0] at h
      rcases List.mem_cons.mp h with he | hm
      · exact Or.inr (he ▸ List.mem_cons_self _ _)
      · rcases ih hm with h1 | h2
        · exact Or.inl h1
        · exact Or.inr (List.mem_cons_of_mem _ h2)

/-- A successful lookup is a member of the association list. -/
theorem findVal_mem {α : Type} (k : String) (v : α) (l : List (String × α))
    (h : findVal k l = some v) : (k, v) ∈ l := by
  induction l with
  | nil => cases h
  | cons kv0 rest ih =>
    obtain ⟨k0, v0⟩ := kv0
    by_cases h0 : k0 = k
    · simp only [findVal, if_pos h0] at h
      subst h0
      exact (Option.some.inj h) ▸ List.mem_cons_self _ _
    · simp only [findVal, if_neg h0] at h
      exact List.mem_cons_of_mem _ (ih h)

/-- One iteration of the skills loop preserves the per-skill invariant of
every stored record (the freshly initialized record satisfies it too). -/
theorem skillsStep_inv (b : Bool) (m : List (String × SkillData)) (s0 : String)
    (h : ∀ kv ∈ m, SkillInvariant kv.2) : ∀ kv ∈ skillsStep b m s0, SkillInvariant kv.2 := by
  intro kv hkv
  rcases mem_assocSet kv s0 _ m hkv with he | hm
  · subst he
    refine updateSkillData_inv b _ ?_
    cases hfv : findVal s0 m with
    | none => simp [SkillInvariant]
    | some sd =>
      simp only [Option.getD_some]
      exact h (s0, sd) (findVal_mem s0 sd m hfv)
  · exact h kv hm

/-- The whole skills loop preserves the per-skill invariant. -/
theorem foldl_skills_inv (b : Bool) (ss : List String) (m : List (String × SkillData))
    (h : ∀ kv ∈ m, SkillInvariant kv.2) :
    ∀ kv ∈ ss.foldl (skillsStep b) m, SkillInvariant kv.2 := by
  induction ss generalizing m with
  | nil => exact h
  | cons a as ih => exact ih (skillsStep b m a) (skillsStep_inv b m a h)

/-- The progress-document invariant of the data model. -/
def ProgressInvariant (p : Progress) : Prop :=
  p.completed_questions ⊆ p.attempted_questions ∧
  p.correct_answers ≤ p.total_attempts ∧
  ∀ kv ∈ p.skills, SkillInvariant kv.2

/-- The initial all-zero/empty document satisfies the invariant. -/
theorem initProgress_inv : ProgressInvariant initProgress := by
  refine ⟨List.Subset.refl _, le_refl _, ?_⟩
  intro kv hkv
  cases hkv

/-- Every `update_user_progress` call preserves the progress invariant. -/
theorem update_preserves_inv (p : Progress) (question_id : Nat) (question : Question)
    (is_correct : Bool) (h : ProgressInvariant p) :
    ProgressInvariant (update_user_progress (some p) question_id question is_correct) := by
  obtain ⟨h1, h2, h3⟩ := h
  refine ⟨?_, ?_, ?_⟩
  · rw [update_completed_eq, update_attempted_eq]
    simp only [Option.getD_some]
    split_ifs with hb hc ha
    · exact h1
    · exact h1.trans (List.subset_append_left _ _)
    · rw [List.append_subset]
      exact ⟨h1, by simpa using ‹question_id ∈ p.attempted_questions›⟩
    · rw [List.append_subset]
      refine ⟨h1.trans (List.subset_append_left _ _), by simp⟩
    · exact h1
    · exact h1.trans (List.subset_append_left _ _)
  · rw [update_correct_eq, update_total_eq]
    simp only [Option.getD_some]
    cases is_correct <;> simp <;> omega
  · rw [update_skills_eq]
    simp only [Option.getD_some]
    exact foldl_skills_inv is_correct _ p.skills h3

/-- A finite sequence of answer submissions applied to the initial
document, each one persisted by upsert and read back by the next. -/
def runSubmissions (subs : List (Nat × Question × Bool)) : Progress :=
  subs.foldl (fun p sub => update_user_progress (some p) sub.1 sub.2.1 sub.2.2) initProgress

/-- The invariant is inductive along any submission sequence. -/
theorem foldl_submissions_inv (subs : List (Nat × Question × Bool)) (p : Progress)
    (h : ProgressInvariant p) :
    ProgressInvariant
      (subs.foldl (fun p sub => update_user_progress (some p) sub.1 sub.2.1 sub.2.2) p) := by
  induction subs generalizing p with
  | nil => exact h
  | cons x xs ih => exact ih _ (update_preserves_inv p x.1 x.2.1 x.2.2 h)

/-- C6: starting from the initial all-zero/empty progress document, any
finite sequence of submissions (any questions, skill sets and correctness
flags) preserves: completed is a subset of attempted, correct_answers is
at most total_attempts, and every tracked skill's mastery level lies in
[0,100]. -/
theorem c6_progress_invariants_preserved (subs : List (Nat × Question × Bool)) :
    (runSubmissions subs).completed_questions ⊆ (runSubmissions subs).attempted_questions ∧
    (runSubmissions subs).correct_answers ≤ (runSubmissions subs).total_attempts ∧
    ∀ kv ∈ (runSubmissions subs).skills,
      0 ≤ kv.2.mastery_level ∧ kv.2.mastery_level ≤ 100 := by
  have h := foldl_submissions_inv subs initProgress initProgress_inv
  exact ⟨h.1, h.2.1, fun kv hkv => ⟨(h.2.2 kv hkv).1, (h.2.2 kv hkv).2.1⟩⟩

/-! ### The question selector: count bound, completed-exclusion, duplicates -/

/-- Stable insertion keeps exactly the inserted element and the list. -/
theorem insLe_perm {α : Type} (le : α → α → Bool) (a : α) (l : List α) :
    (insLe le a l).Perm (a :: l) := by
  induction l with
  | nil => exact List.Perm.refl _
  | cons x xs ih =>
    simp only [insLe]
    split_ifs
    · exact List.Perm.refl _
    · exact (ih.cons x).trans (List.Perm.swap a x xs)

/-- Sorting is a permutation. -/
theorem sortLe_perm {α : Type} (le : α → α → Bool) (l : List α) : (sortLe le l).Perm l := by
  induction l with
  | nil => exact List.Perm.refl _
  | cons x xs ih => exact (insLe_perm le x (sortLe le xs)).trans (ih.cons x)

/-- Sorting preserves membership. -/
theorem mem_sortLe {α : Type} {le : α → α → Bool} {x : α} {l : List α} :
    x ∈ sortLe le l ↔ x ∈ l := (sortLe_perm le l).mem_iff

/-- Stage 1 returns at most `count` questions. -/
theorem stage1Result_length_le (catalog : List Question) (count : Nat)
    (difficulty subject topic : Option String) (progress? : Option Progress) :
    (stage1Result catalog count difficulty subject topic progress?).length ≤ count :=
  List.length_take_le count _

/-- Stages 1-2 return at most `count` questions. -/
theorem stage2Result_length_le (catalog : List Question) (count : Nat)
    (difficulty subject topic : Option String) (progress? : Option Progress) :
    (stage2Result catalog count difficulty subject topic progress?).length ≤ count := by
  simp only [stage2Result]
  split_ifs with h
  · rw [List.length_append]
    have hx := List.length_take_le
      (count - (stage1Result catalog count difficulty subject topic progress?).length)
      (sortLe prioLE (catalog.filter (stage2Query difficulty subject progress?)))
    have hy := stage1Result_length_le catalog count difficulty subject topic progress?
    omega
  · exact stage1Result_length_le catalog count difficulty subject topic progress?

/-- Every stage-1 question satisfies the stage-1 query. -/
theorem mem_stage1Result_query {x : Question} (catalog : List Question) (count : Nat)
    (difficulty subject topic : Option String) (progress? : Option Progress)
    (hx : x ∈ stage1Result catalog count difficulty subject topic progress?) :
    stage1Query difficulty subject topic progress? x = true := by
  unfold stage1Result at hx
  have hm := List.mem_of_mem_take hx
  rw [mem_sortLe] at hm
  exact (List.mem_filter.mp hm).2

/-- Every question of stages 1-2 passes the completed-questions
exclusion (both stage queries contain it). -/
theorem mem_stage2Result_completed {x : Question} (catalog : List Question) (count : Nat)
    (difficulty subject topic : Option String) (progress? : Option Progress)
    (hx : x ∈ stage2Result catalog count difficulty subject topic progress?) :
    completedFilter progress? x = true := by
  simp only [stage2Result] at hx
  split at hx
  · rcases List.mem_append.mp hx with h1 | h2
    · have hq := mem_stage1Result_query catalog count difficulty subject topic progress? h1
      simp only [stage1Query, Bool.and_eq_true] at hq
      exact hq.1.2
    · have hm := List.mem_of_mem_take h2
      rw [mem_sortLe] at hm
      have hq := (List.mem_filter.mp hm).2
      simp only [stage2Query, Bool.and_eq_true] at hq
      exact hq.1.2
  · have hq := mem_stage1Result_query catalog count difficulty subject topic progress? hx
    simp only [stage1Query, Bool.and_eq_true] at hq
    exact hq.1.2

/-- C4: for every valid count in [1,10] and every user-progress document
(which always carries a completed set), the selector returns at most
`count` questions and none of their ids is in the user's completed set,
across all three relaxation stages. -/
theorem c4_selector_count_and_completed_exclusion (catalog : List Question) (count : Nat)
    (difficulty subject topic : Option String) (p : Progress)
    (h1 : 1 ≤ count) (h2 : count ≤ 10) :
    (get_next_questions catalog count difficulty subject topic (some p)).length ≤ count ∧
    ∀ q ∈ get_next_questions catalog count difficulty subject topic (some p),
      q.qid ∉ p.completed_questions := by
  constructor
  · simp only [get_next_questions]
    split_ifs with h
    · rw [List.length_append]
      have hx := List.length_take_le
        (count - (stage2Result catalog count difficulty subject topic (some p)).length)
        (catalog.filter (fun q =>
          !(((stage2Result catalog count difficulty subject topic (some p)).map
              Question.qid).contains q.qid) && completedFilter (some p) q))
      have hy := stage2Result_length_le catalog count difficulty subject topic (some p)
      omega
    · exact stage2Result_length_le catalog count difficulty subject topic (some p)
  · intro q hq
    have hc : completedFilter (some p) q = true := by
      simp only [get_next_questions] at hq
      split at hq
      · rcases List.mem_append.mp hq with hq1 | hq2
        · exact mem_stage2Result_completed catalog count difficulty subject topic (some p) hq1
        · have hm := List.mem_of_mem_take hq2
          exact ((Bool.and_eq_true _ _).mp (List.mem_filter.mp hm).2).2
      · exact mem_stage2Result_completed catalog count difficulty subject topic (some p) hq
    simp only [completedFilter, Bool.not_eq_true'] at hc
    simpa using hc

/-- First question of the C4 witness catalog (already completed). -/
def c4WitQ1 : Question := { qid := 1 }

/-- Second question of the C4 witness catalog. -/
def c4WitQ2 : Question := { qid := 2 }

/-- Progress of the C4 witness: question 1 completed. -/
def c4WitProgress : Progress :=
  { completed_questions := [1]
    attempted_questions := [1]
    correct_answers := 1
    total_attempts := 1
    skills := [] }

/-- Witness for C4 at a two-question catalog with question 1 completed. -/
theorem c4_selector_count_and_completed_exclusion_witness :
    (1 ≤ 2 ∧ 2 ≤ 10) ∧
    ((get_next_questions [c4WitQ1, c4WitQ2] 2 none none none (some c4WitProgress)).length ≤ 2 ∧
     ∀ q ∈ get_next_questions [c4WitQ1, c4WitQ2] 2 none none none (some c4WitProgress),
       q.qid ∉ c4WitProgress.completed_questions) :=
  ⟨⟨by decide, by decide⟩,
    c4_selector_count_and_completed_exclusion [c4WitQ1, c4WitQ2] 2 none none none
      c4WitProgress (by decide) (by decide)⟩

/-- Stage-1 results carry no duplicate id when catalog ids are distinct. -/
theorem nodup_map_qid_stage1 (catalog : List Question) (count : Nat)
    (difficulty subject topic : Option String) (progress? : Option Progress)
    (hnd : (catalog.map Question.qid).Nodup) :
    ((stage1Result catalog count difficulty subject topic progress?).map
      Question.qid).Nodup := by
  unfold stage1Result
  have hf : ((catalog.filter (stage1Query difficulty subject topic progress?)).map
      Question.qid).Nodup :=
    ((List.filter_sublist catalog).map Question.qid).nodup hnd
  have hs : (((sortLe prioLE (catalog.filter
      (stage1Query difficulty subject topic progress?))).map Question.qid)).Nodup :=
    (((sortLe_perm prioLE _).map Question.qid).nodup_iff).mpr hf
  exact ((List.take_sublist count _).map Question.qid).nodup hs

/-- C3 (amended): the selector's response contains no duplicate question
id when no (truthy) topic filter is supplied — so the stage-2 relaxation,
whose top-up query does not exclude the ids already chosen and can repeat
them, never runs — and catalog ids are pairwise distinct; stage 1 draws
distinct catalog documents and the stage-3 fill explicitly excludes the
ids already chosen. -/
theorem c3_no_duplicates_without_topic_filter (catalog : List Question) (count : Nat)
    (difficulty subject topic : Option String) (progress? : Option Progress)
    (h1 : 1 ≤ count) (h2 : count ≤ 10) (ht : truthyStr topic = false)
    (hnd : (catalog.map Question.qid).Nodup) :
    ((get_next_questions catalog count difficulty subject topic progress?).map
      Question.qid).Nodup := by
  have hs2 : stage2Result catalog count difficulty subject topic progress? =
      stage1Result catalog count difficulty subject topic progress? := by
    simp [stage2Result, ht]
  have hn1 := nodup_map_qid_stage1 catalog count difficulty subject topic progress? hnd
  simp only [get_next_questions]
  split_ifs with h
  · rw [List.map_append]
    rw [List.nodup_append]
    refine ⟨by rw [hs2]; exact hn1, ?_, ?_⟩
    · have hf : ((catalog.filter (fun q =>
          !(((stage2Result catalog count difficulty subject topic progress?).map
            Question.qid).contains q.qid) && completedFilter progress? q)).map
          Question.qid).Nodup :=
        ((List.filter_sublist catalog).map Question.qid).nodup hnd
      exact ((List.take_sublist _ _).map Question.qid).nodup hf
    · intro a ha hb
      rw [List.mem_map] at hb
      obtain ⟨x, hx, hxa⟩ := hb
      have hm := List.mem_of_mem_take hx
      have hpred := (List.mem_filter.mp hm).2
      have hnc := ((Bool.and_eq_true _ _).mp hpred).1
      rw [Bool.not_eq_true'] at hnc
      have hni : a ∉ (stage2Result catalog count difficulty subject topic progress?).map
          Question.qid := by
        rw [← hxa]
        simpa using hnc
      exact hni ha
  · rw [hs2]
    exact hn1

/-- First question of the C3 witness catalog. -/
def c3WitQ1 : Question := { qid := 1 }

/-- Second question of the C3 witness catalog. -/
def c3WitQ2 : Question := { qid := 2 }

/-- Witness for the amended C3 theorem at a topic-free request. -/
theorem c3_no_duplicates_without_topic_filter_witness :
    (1 ≤ 1 ∧ 1 ≤ 10 ∧ truthyStr none = false ∧
      (([c3WitQ1, c3WitQ2].map Question.qid)).Nodup) ∧
    ((get_next_questions [c3WitQ1, c3WitQ2] 1 none none none none).map
      Question.qid).Nodup :=
  ⟨⟨by decide, by decide, by decide, by decide⟩,
    c3_no_duplicates_without_topic_filter [c3WitQ1, c3WitQ2] 1 none none none none
      (by decide) (by decide) (by decide) (by decide)⟩

/-! ### Response formatting: determinism, stripping, frame condition -/

/-- A key outside the key list is not found. -/
theorem findVal_eq_none_of_not_mem_keys {α : Type} (k : String) (l : List (String × α))
    (h : k ∉ l.map Prod.fst) : findVal k l = none := by
  induction l with
  | nil => rfl
  | cons kv rest ih =>
    obtain ⟨k0, v0⟩ := kv
    simp only [List.map_cons, List.mem_cons] at h
    push_neg at h
    simp only [findVal]
    rw [if_neg (fun he : k0 = k => h.1 he.symm)]
    exact ih h.2

/-- Erasing one key leaves lookups of other keys unchanged. -/
theorem findVal_assocErase_ne {α : Type} (k k' : String) (h : k' ≠ k) (l : List (String × α)) :
    findVal k' (assocErase k l) = findVal k' l := by
  induction l with
  | nil => rfl
  | cons kv rest ih =>
    obtain ⟨k0, v0⟩ := kv
    by_cases h0 : k0 = k
    · subst h0
      simp only [assocErase, if_true, eq_self_iff_true]
      have hr : findVal k' ((k0, v0) :: rest) = findVal k' rest := by
        simp only [findVal]
        exact if_neg (fun he : k0 = k' => h he.symm)
      rw [hr]
    · simp only [assocErase]
      rw [if_neg h0]
      simp only [findVal, ih]

/-- Keys surviving an erase were keys before. -/
theorem mem_keys_assocErase {α : Type} (a k : String) (l : List (String × α))
    (h : a ∈ (assocErase k l).map Prod.fst) : a ∈ l.map Prod.fst := by
  induction l with
  | nil => simpa [assocErase] using h
  | cons kv rest ih =>
    obtain ⟨k0, v0⟩ := kv
    by_cases h0 : k0 = k
    · rw [assocErase, if_pos h0] at h
      simp only [List.map_cons, List.mem_cons]
      exact Or.inr h
    · rw [assocErase, if_neg h0] at h
      simp only [List.map_cons, List.mem_cons] at h ⊢
      rcases h with he | hm
      · exact Or.inl he
      · exact Or.inr (ih hm)

/-- Erasing preserves key uniqueness. -/
theorem nodup_keys_assocErase {α : Type} (k : String) (l : List (String × α))
    (h : (l.map Prod.fst).Nodup) : ((assocErase k l).map Prod.fst).Nodup := by
  induction l with
  | nil => simp [assocErase]
  | cons kv rest ih =>
    obtain ⟨k0, v0⟩ := kv
    simp only [List.map_cons, List.nodup_cons] at h
    by_cases h0 : k0 = k
    · rw [assocErase, if_pos h0]
      exact h.2
    · rw [assocErase, if_neg h0]
      simp only [List.map_cons, List.nodup_cons]
      exact ⟨fun hm => h.1 (mem_keys_assocErase k0 k rest hm), ih h.2⟩

/-- With unique keys, the erased key is gone. -/
theorem findVal_assocErase_self {α : Type} (k : String) (l : List (String × α))
    (hnd : (l.map Prod.fst).Nodup) : findVal k (assocErase k l) = none := by
  induction l with
  | nil => rfl
  | cons kv rest ih =>
    obtain ⟨k0, v0⟩ := kv
    simp only [List.map_cons, List.nodup_cons] at hnd
    by_cases h0 : k0 = k
    · subst h0
      rw [assocErase, if_pos rfl]
      exact findVal_eq_none_of_not_mem_keys k0 rest hnd.1
    · rw [assocErase, if_neg h0]
      simp only [findVal]
      rw [if_neg h0]
      exact ih hnd.2

/-- Keys after a set are the old keys or the key set. -/
theorem mem_keys_assocSet {α : Type} (a k : String) (v : α) (l : List (String × α))
    (h : a ∈ (assocSet k v l).map Prod.fst) : a ∈ l.map Prod.fst ∨ a = k := by
  induction l with
  | nil =>
    simp only [assocSet, List.map_cons, List.map_nil, List.mem_singleton] at h
    exact Or.inr h
  | cons kv rest ih =>
    obtain ⟨k0, v0⟩ := kv
    by_cases h0 : k0 = k
    · rw [assocSet, if_pos h0] at h
      simp only [List.map_cons, List.mem_cons] at h
      subst h0
      rcases h with he | hm
      · exact Or.inr he
      · exact Or.inl (by simp [hm])
    · rw [assocSet, if_neg h0] at h
      simp only [List.map_cons, List.mem_cons] at h
      rcases h with he | hm
      · exact Or.inl (by simp [he])
      · rcases ih hm with h1 | h2
        · exact Or.inl (by simp [h1])
        · exact Or.inr h2

/-- Setting a key preserves key uniqueness. -/
theorem nodup_keys_assocSet {α : Type} (k : String) (v : α) (l : List (String × α))
    (h : (l.map Prod.fst).Nodup) : ((assocSet k v l).map Prod.fst).Nodup := by
  induction l with
  | nil => simp [assocSet]
  | cons kv rest ih =>
    obtain ⟨k0, v0⟩ := kv
    simp only [List.map_cons, List.nodup_cons] at h
    by_cases h0 : k0 = k
    · subst h0
      rw [assocSet, if_pos rfl]
      simp only [List.map_cons, List.nodup_cons]
      exact ⟨h.1, h.2⟩
    · rw [assocSet, if_neg h0]
      simp only [List.map_cons, List.nodup_cons]
      refine ⟨fun hm => ?_, ih h.2⟩
      rcases mem_keys_assocSet k0 k v rest hm with h1 | h2
      · exact h.1 h1
      · exact h0 h2

/-- C8: for every stored question document (unique keys, as in any BSON
document), a successful `format_question_response` yields a payload that
never contains the keys `correct_answer` or `explanations`, and the
formatting is deterministic — any two results of formatting the same
stored document are identical, so repeated GETs return identical stripped
payloads. -/
theorem c8_format_deterministic_and_strips_answers (q d : Dict) (hnd : (q.map Prod.fst).Nodup)
    (h : format_question_response q = some d) :
    findVal "correct_answer" d = none ∧ findVal "explanations" d = none ∧
    ∀ d2, format_question_response q = some d2 → d2 = d := by
  have hdet : ∀ d2, format_question_response q = some d2 → d2 = d := by
    intro d2 h2
    rw [h] at h2
    exact (Option.some.inj h2).symm
  rw [format_question_response] at h
  split_ifs at h with he
  · have hd : d = [] := (Option.some.inj h).symm
    subst hd
    exact ⟨rfl, rfl, hdet⟩
  · cases hfv : findVal "_id" q with
    | none =>
      simp only [hfv] at h
      exact Option.noConfusion h
    | some v =>
      simp only [hfv] at h
      have hd := (Option.some.inj h).symm
      subst hd
      refine ⟨?_, ?_, hdet⟩
      · rw [findVal_assocErase_ne "explanations" "correct_answer" (by decide)]
        exact findVal_assocErase_self _ _ (nodup_keys_assocSet _ _ q hnd)
      · exact findVal_assocErase_self _ _
          (nodup_keys_assocErase _ _ (nodup_keys_assocSet _ _ q hnd))

/-- C9: `format_question_response` removes exactly the keys
`correct_answer` and `explanations` and stringifies `_id`; every other
stored field — in particular a free-text question's singular
`explanation` feedback field — is passed through unchanged to the
learner. -/
theorem c9_format_frame_condition (q d : Dict) (hnd : (q.map Prod.fst).Nodup)
    (h : format_question_response q = some d) :
    (∀ k, k ≠ "correct_answer" → k ≠ "explanations" → k ≠ "_id" →
      findVal k d = findVal k q) ∧
    findVal "explanation" d = findVal "explanation" q ∧
    (∀ v, findVal "_id" q = some v →
      findVal "_id" d = some (Value.vstr (pyStr v))) ∧
    findVal "correct_answer" d = none ∧ findVal "explanations" d = none := by
  rw [format_question_response] at h
  split_ifs at h with he
  · have hq : q = [] := List.isEmpty_iff.mp he
    have hd : d = [] := (Option.some.inj h).symm
    subst hd
    subst hq
    exact ⟨fun k _ _ _ => rfl, rfl, fun v hv => Option.noConfusion hv, rfl, rfl⟩
  · cases hfv : findVal "_id" q with
    | none =>
      simp only [hfv] at h
      exact Option.noConfusion h
    | some v =>
      simp only [hfv] at h
      have hd := (Option.some.inj h).symm
      subst hd
      refine ⟨?_, ?_, ?_, ?_, ?_⟩
      · intro k hk1 hk2 hk3
        rw [findVal_assocErase_ne "explanations" k hk2,
          findVal_assocErase_ne "correct_answer" k hk1,
          findVal_assocSet_ne "_id" k hk3]
      · rw [findVal_assocErase_ne "explanations" "explanation" (by decide),
          findVal_assocErase_ne "correct_answer" "explanation" (by decide),
          findVal_assocSet_ne "_id" "explanation" (by decide)]
      · intro v2 hv2
        have hv12 : v = v2 := Option.some.inj hv2
        subst hv12
        rw [findVal_assocErase_ne "explanations" "_id" (by decide),
          findVal_assocErase_ne "correct_answer" "_id" (by decide)]
        exact findVal_assocSet_self "_id" _ q
      · rw [findVal_assocErase_ne "explanations" "correct_answer" (by decide)]
        exact findVal_assocErase_self _ _ (nodup_keys_assocSet _ _ q hnd)
      · exact findVal_assocErase_self _ _
          (nodup_keys_assocErase _ _ (nodup_keys_assocSet _ _ q hnd))

/-- The stored question document of the C8 witness. -/
def c8SampleDoc : Dict :=
  [("_id", Value.void 7), ("question", Value.vstr "What is 2 + 2?"),
   ("correct_answer", Value.vstr "4"), ("explanations", Value.vstr "choice-map"),
   ("difficulty", Value.vstr "easy")]

/-- The stripped payload the C8 witness document formats to. -/
def c8SampleStripped : Dict :=
  [("_id", Value.vstr "7"), ("question", Value.vstr "What is 2 + 2?"),
   ("difficulty", Value.vstr "easy")]

/-- Witness for C8 at a concrete stored document. -/
theorem c8_format_deterministic_and_strips_answers_witness :
    ((c8SampleDoc.map Prod.fst).Nodup ∧
      format_question_response c8SampleDoc = some c8SampleStripped) ∧
    (findVal "correct_answer" c8SampleStripped = none ∧
     findVal "explanations" c8SampleStripped = none ∧
     ∀ d2, format_question_response c8SampleDoc = some d2 → d2 = c8SampleStripped) :=
  ⟨⟨by decide, by decide⟩,
    c8_format_deterministic_and_strips_answers c8SampleDoc c8SampleStripped
      (by decide) (by decide)⟩

/-- The stored free-text question document of the C9 witness, carrying a
singular `explanation` field. -/
def c9SampleDoc : Dict :=
  [("_id", Value.void 3), ("question", Value.vstr "Capital of France?"),
   ("type", Value.vstr "text"), ("correct_answer", Value.vstr "Paris"),
   ("explanation", Value.vstr "Think of the Eiffel Tower."), ("points", Value.vint 10)]

/-- The stripped payload the C9 witness document formats to: `explanation`
is still present. -/
def c9SampleStripped : Dict :=
  [("_id", Value.vstr "3"), ("question", Value.vstr "Capital of France?"),
   ("type", Value.vstr "text"),
   ("explanation", Value.vstr "Think of the Eiffel Tower."), ("points", Value.vint 10)]

/-- Witness for C9 at a concrete free-text document. -/
theorem c9_format_frame_condition_witness :
    ((c9SampleDoc.map Prod.fst).Nodup ∧
      format_question_response c9SampleDoc = some c9SampleStripped) ∧
    ((∀ k, k ≠ "correct_answer" → k ≠ "explanations" → k ≠ "_id" →
        findVal k c9SampleStripped = findVal k c9SampleDoc) ∧
     findVal "explanation" c9SampleStripped = findVal "explanation" c9SampleDoc ∧
     (∀ v, findVal "_id" c9SampleDoc = some v →
        findVal "_id" c9SampleStripped = some (Value.vstr (pyStr v))) ∧
     findVal "correct_answer" c9SampleStripped = none ∧
     findVal "explanations" c9SampleStripped = none) :=
  ⟨⟨by decide, by decide⟩,
    c9_format_frame_condition c9SampleDoc c9SampleStripped (by decide) (by decide)⟩

end Alas
